import Mathlib

/-
Verification of the uvspecgen spectrum module (src/uvspec/spectrum.py).

The Python module is shallowly embedded as follows:

  - Python byte strings are `List Char` (`PyStr`); a log file is represented
    by its full text, and iterating over its lines is `splitLinesKeep`,
    which splits after every newline character, keeping the newline on each
    line, exactly as Python file iteration does.
  - Python floats are modelled as exact rationals `ℚ`: `float(s)` becomes
    the decimal parser `pyFloat` and `str(f)` the minimal decimal printer
    `pyStr` (the spec states its numeric contracts up to floating
    tolerances, which exact rational arithmetic satisfies a fortiori; the
    binary rounding of IEEE floats, 12-significant-digit truncation of
    Python 2 `str`, and inf/nan are outside this idealization and all
    concrete inputs below are short decimals on which the model and Python
    agree exactly).
  - Raised Python exceptions become `Except SpecErr` values, with the
    error names taken from the spec taxonomy (`ValueError` of `max`/`min`
    on an empty list is `EmptyStickSet`, `ZeroDivisionError` is
    `DivisionByZero`, `IndexError`/`ValueError` while parsing a record is
    `MalformedRecord`).
  - The `while point <= max_energy` loop of `generate_spectrum` is the
    fuel-indexed `gridLoop`; `gridFuel` is a fuel bound that is proved
    sufficient whenever the grid spacing is positive, so `energy_grid`
    (the loop run with that fuel) is the loop's output exactly when the
    loop terminates.
  - `math.e ** x` is `Real.exp x`, so the absorbance values live in `ℝ`.
-/

/-- Python strings are modelled as lists of characters. -/
abbrev PyStr := List Char

/-- Error taxonomy of the spec for the exceptions the Python code can raise. -/
inductive SpecErr where
  | EmptyStickSet
  | DivisionByZero
  | MalformedRecord
deriving DecidableEq, Repr

instance {ε α : Type} [DecidableEq ε] [DecidableEq α] : DecidableEq (Except ε α) := fun a b =>
  match a, b with
  | Except.error x, Except.error y =>
      if h : x = y then Decidable.isTrue (congrArg Except.error h)
      else Decidable.isFalse (fun hc => h (by injection hc))
  | Except.ok x, Except.ok y =>
      if h : x = y then Decidable.isTrue (congrArg Except.ok h)
      else Decidable.isFalse (fun hc => h (by injection hc))
  | Except.error _, Except.ok _ => Decidable.isFalse (fun hc => Except.noConfusion hc)
  | Except.ok _, Except.error _ => Decidable.isFalse (fun hc => Except.noConfusion hc)

/-- Python whitespace characters, as used by `float(...)` stripping and by
`str.split()` with no argument. -/
def isPyWs (c : Char) : Bool :=
  c = ' ' || c = '\t' || c = '\n' || c = '\r' || c = '\x0b' || c = '\x0c'

/-- Strip Python whitespace from both ends (what `float` does before parsing). -/
def pyTrim (s : PyStr) : PyStr :=
  ((s.dropWhile isPyWs).reverse.dropWhile isPyWs).reverse

/-- Decimal digits to the natural number they denote (most significant first). -/
def digitsToNat (ds : PyStr) : Nat :=
  ds.foldl (fun acc d => 10 * acc + (d.toNat - 48)) 0

/-- Split a leading run of decimal digits from the rest. -/
def takeDigits (s : PyStr) : PyStr × PyStr :=
  (s.takeWhile Char.isDigit, s.dropWhile Char.isDigit)

/-- Powers of ten over the integers, written structurally so the kernel
can evaluate them. -/
def tenPowI : Nat → Int
  | 0 => 1
  | k + 1 => 10 * tenPowI k

/-- Powers of ten over the naturals, written structurally so the kernel
can evaluate them. -/
def tenPowN : Nat → Nat
  | 0 => 1
  | k + 1 => 10 * tenPowN k

/-- A Python float in this model: an exact decimal `mant / 10 ^ exp`.
The constructors below always normalize (no trailing zero in `mant`
unless `exp = 0`), so equal values have equal representations, mirroring
numeric equality of Python floats on finite decimals. -/
structure PyFloat where
  mant : Int
  exp : Nat
deriving DecidableEq, Repr

/-- The rational value of a model float. -/
def PyFloat.toRat (x : PyFloat) : ℚ :=
  (x.mant : ℚ) / (10 : ℚ) ^ x.exp

/-- Normalize a decimal `m / 10 ^ e` by removing trailing zeros. -/
def normDec : Int → Nat → PyFloat
  | m, 0 => ⟨m, 0⟩
  | m, e + 1 => if m % 10 = 0 then normDec (m / 10) e else ⟨m, e + 1⟩

/-- Incorporate a signed decimal exponent `E` into `m / 10 ^ e`. -/
def applyExp (m : Int) (e : Nat) (E : Int) : PyFloat :=
  if (e : Int) ≤ E then normDec (m * tenPowI (E - (e : Int)).toNat) 0
  else normDec m ((e : Int) - E).toNat

/-- Optional leading sign of a float literal. -/
def parseSign (s : PyStr) : Int × PyStr :=
  match s with
  | '+' :: r => (1, r)
  | '-' :: r => (-1, r)
  | _ => (1, s)

/-- Optional exponent part of a float literal; `none` on trailing garbage. -/
def parseExpPart (m : Int) (e : Nat) (s : PyStr) : Option PyFloat :=
  match s with
  | [] => some (normDec m e)
  | c :: r =>
    if c = 'e' || c = 'E' then
      let (esgn, r2) : Int × PyStr :=
        match r with
        | '+' :: r3 => (1, r3)
        | '-' :: r3 => (-1, r3)
        | _ => (1, r)
      let (ed, r4) := takeDigits r2
      if ed.isEmpty || !r4.isEmpty then none
      else some (applyExp m e (esgn * (digitsToNat ed : Int)))
    else none

/-- Model of the Python builtin `float(s)` on finite decimal literals:
optional surrounding whitespace, optional sign, digits with an optional
decimal point (at least one digit overall), optional signed exponent. -/
def pyFloat (s : PyStr) : Option PyFloat :=
  let t := pyTrim s
  let (sgn, t1) := parseSign t
  let (ip, t2) := takeDigits t1
  let (fp, t3) :=
    match t2 with
    | '.' :: r => takeDigits r
    | _ => (([] : PyStr), t2)
  if ip.isEmpty && fp.isEmpty then none
  else parseExpPart (sgn * ((digitsToNat ip : Int) * (tenPowN fp.length : Int) + (digitsToNat fp : Int))) fp.length t3

/-- Pad a digit string with leading zeros to length `k`. -/
def padZeros (ds : PyStr) (k : Nat) : PyStr :=
  List.replicate (k - ds.length) '0' ++ ds

/-- Model of Python 2 `str(f)` on a finite-decimal float: minimal decimal
digits, always at least one digit after the point (so `str(3.0)` is
`3.0` and `str(3.5)` is `3.5`). -/
def pyStr (x : PyFloat) : PyStr :=
  let k := max 1 x.exp
  let m := x.mant.natAbs * tenPowN (k - x.exp)
  let ip := m / tenPowN k
  let fp := m % tenPowN k
  (if x.mant < 0 then ['-'] else []) ++ Nat.toDigits 10 ip ++ ['.'] ++ padZeros (Nat.toDigits 10 fp) k

/-- Python substring containment `needle in hay`. -/
def pyInStr (needle hay : PyStr) : Bool :=
  hay.tails.any fun t => needle.isPrefixOf t

/-- Split a text into its lines, each line keeping its trailing newline,
as Python file iteration yields them; auxiliary accumulator version. -/
def splitLinesAux : List Char → List Char → List PyStr
  | [], acc => if acc.isEmpty then [] else [acc.reverse]
  | c :: cs, acc =>
    if c = '\n' then (c :: acc).reverse :: splitLinesAux cs []
    else splitLinesAux cs (c :: acc)

/-- Split a text into its lines, keeping newlines (Python file iteration). -/
def splitLinesKeep (text : PyStr) : List PyStr :=
  splitLinesAux text []

/-- Python `state.split(' ')`: split on every single space character,
keeping empty segments between consecutive spaces. -/
def splitSpaceAux : List Char → List Char → List PyStr
  | [], acc => [acc.reverse]
  | c :: cs, acc =>
    if c = ' ' then acc.reverse :: splitSpaceAux cs []
    else splitSpaceAux cs (c :: acc)

/-- Python `state.split(' ')`. -/
def splitSpace (s : PyStr) : List PyStr :=
  splitSpaceAux s []

/-- Python `str.split()` with no argument: split on runs of whitespace,
producing no empty tokens.  This is the tokenization the spec describes
("splitting on whitespace and discarding empty tokens"); the source code
instead splits on the single space character, see `splitSpace`. -/
def splitWhitespaceSpec : List Char → List Char → List PyStr
  | [], acc => if acc.isEmpty then [] else [acc.reverse]
  | c :: cs, acc =>
    if isPyWs c then
      (if acc.isEmpty then splitWhitespaceSpec cs [] else acc.reverse :: splitWhitespaceSpec cs [])
    else splitWhitespaceSpec cs (c :: acc)

/-- The spec-side whitespace tokenizer applied to a line. -/
def specTokens (s : PyStr) : List PyStr :=
  splitWhitespaceSpec s []

/-- The literal record marker, with leading and trailing space
(spectrum.py line 354). -/
def excited_marker : PyStr :=
  (" Excited State ").toList

/-- spectrum.py lines 343-356, `read_in_excited_states`: keep exactly the
lines beginning with the literal marker. -/
def read_in_excited_states (text : PyStr) : List PyStr :=
  (splitLinesKeep text).filter fun l => excited_marker.isPrefixOf l

/-- The two numbers extracted from one `Excited State` record line. -/
structure StateData where
  energy : PyFloat
  oscillator : PyFloat
deriving DecidableEq, Repr

/-- spectrum.py line 367, `filter(None, state.split(' '))`. -/
def pyWords (state : PyStr) : List PyStr :=
  (splitSpace state).filter fun w => !w.isEmpty

/-- spectrum.py lines 359-370, `get_state_data`: energy is field 4 parsed as
a float and the oscillator strength is field 8 with its first two
characters stripped, parsed as a float.  An `IndexError` (fewer than nine
fields) or `ValueError` (unparseable float) becomes `MalformedRecord`. -/
def get_state_data (state : PyStr) : Except SpecErr StateData :=
  let words := pyWords state
  match words.get? 4 with
  | none => Except.error SpecErr.MalformedRecord
  | some w4 =>
    match pyFloat w4 with
    | none => Except.error SpecErr.MalformedRecord
    | some e =>
      match words.get? 8 with
      | none => Except.error SpecErr.MalformedRecord
      | some w8 =>
        match pyFloat (w8.drop 2) with
        | none => Except.error SpecErr.MalformedRecord
        | some o => Except.ok ⟨e, o⟩

/-- Conversion factor for electron volts to nanometers (spectrum.py line 36). -/
def EV2NM : ℚ := 1239.84

/-- spectrum.py lines 442-456, `convert_units`: element-wise conversion;
in the inverse case Python float division raises `ZeroDivisionError` on a
zero value. -/
def convert_units : List ℚ → ℚ → Bool → Except SpecErr (List ℚ)
  | [], _, _ => Except.ok []
  | value :: rest, cfactor, inverse =>
    if inverse then
      if value = 0 then Except.error SpecErr.DivisionByZero
      else
        match convert_units rest cfactor inverse with
        | Except.error e => Except.error e
        | Except.ok tail => Except.ok (cfactor / value :: tail)
    else
      match convert_units rest cfactor inverse with
      | Except.error e => Except.error e
      | Except.ok tail => Except.ok (value * cfactor :: tail)

/-- The record-parsing loop of `get_excited_states` (spectrum.py lines
180-183): parse each saved line in order, propagating the first failure. -/
def extract_states : List PyStr → Except SpecErr (List StateData)
  | [] => Except.ok []
  | s :: rest =>
    match get_state_data s with
    | Except.error e => Except.error e
    | Except.ok d =>
      match extract_states rest with
      | Except.error e => Except.error e
      | Except.ok ds => Except.ok (d :: ds)

/-- spectrum.py lines 172-185, `get_excited_states`: the stick data of all
marker lines plus the stick wavelengths from `convert_units`. -/
def get_excited_states (text : PyStr) : Except SpecErr (List StateData × List ℚ) :=
  match extract_states (read_in_excited_states text) with
  | Except.error e => Except.error e
  | Except.ok states =>
    match convert_units (states.map fun d => d.energy.toRat) EV2NM true with
    | Except.error e => Except.error e
    | Except.ok wl => Except.ok (states, wl)

/-- Python `max` on a list: `ValueError` on the empty list, which the spec
names `EmptyStickSet` at this call site (spectrum.py line 201). -/
def pyMax : List ℚ → Except SpecErr ℚ
  | [] => Except.error SpecErr.EmptyStickSet
  | x :: xs => Except.ok (xs.foldl max x)

/-- Python `min` on a list (spectrum.py line 202). -/
def pyMin : List ℚ → Except SpecErr ℚ
  | [] => Except.error SpecErr.EmptyStickSet
  | x :: xs => Except.ok (xs.foldl min x)

/-- The `while point <= max_energy` loop of spectrum.py lines 206-208, with
an explicit fuel bounding the number of iterations; the loop itself has no
other exit, so exhausted fuel models non-termination. -/
def gridLoop (max_energy grd : ℚ) : ℚ → Nat → List ℚ
  | _, 0 => []
  | point, n + 1 =>
    if point ≤ max_energy then point :: gridLoop max_energy grd (point + grd) n
    else []

/-- Fuel sufficient for `gridLoop` whenever the spacing is positive. -/
def gridFuel (max_energy grd point : ℚ) : Nat :=
  (⌈(max_energy - point) / grd⌉ + 1).toNat

/-- The energy grid the while loop produces when it terminates: the loop
run with sufficient fuel (sufficiency is proved for positive spacing). -/
def energy_grid (min_energy max_energy grd : ℚ) : List ℚ :=
  gridLoop max_energy grd min_energy (gridFuel max_energy grd min_energy)

/-- Configuration dictionary of the line-shape fit (spectrum.py lines
135-138): `grid` is the spacing, `plot_range` the padding beyond the
extremal stick energies. -/
structure FitParameters where
  grid : ℚ
  sigma : ℚ
  shift : ℚ
  plot_range : ℚ

/-- Phase 1 of `generate_spectrum` (spectrum.py lines 198-208): the energy
grid from `min(sticks) - range` to at most `max(sticks) + range`. -/
def generate_grid (energies : List ℚ) (plot_range grd : ℚ) : Except SpecErr (List ℚ) :=
  match pyMax energies with
  | Except.error e => Except.error e
  | Except.ok mx =>
    match pyMin energies with
    | Except.error e => Except.error e
    | Except.ok mn => Except.ok (energy_grid (mn - plot_range) (plot_range + mx) grd)

/-- One Gaussian term of the line-shape sum (spectrum.py lines 224-227):
`osc * e ** (-0.5 * (point + shift - energy)^2 / sigma^2)`. -/
noncomputable def gau_term (sigma shift e o point : ℚ) : ℝ :=
  (o : ℝ) * Real.exp ((-0.5 * ((point : ℝ) + (shift : ℝ) - (e : ℝ)) ^ 2) / ((sigma : ℝ)) ^ 2)

/-- The inner accumulation loop of spectrum.py lines 222-227: start from
`0.0` and add the Gaussian term of every state index in order. -/
noncomputable def gau_fit (energies oscs : List ℚ) (sigma shift point : ℚ) : ℝ :=
  (List.range energies.length).foldl
    (fun acc state => acc + gau_term sigma shift (energies.getD state 0) (oscs.getD state 0) point) 0

/-- spectrum.py lines 187-228, `generate_spectrum`: energy grid, wavelength
grid, then the absorbance at every grid point.  When `sigma = 0` the first
evaluated Gaussian term divides by zero in Python, which happens exactly
when the grid is non-empty (the stick list is non-empty whenever this
point is reached, since `max` succeeded). -/
noncomputable def generate_spectrum (energies oscs : List ℚ) (p : FitParameters) :
    Except SpecErr (List ℚ × List ℚ × List ℝ) :=
  match generate_grid energies p.plot_range p.grid with
  | Except.error e => Except.error e
  | Except.ok egrid =>
    match convert_units egrid EV2NM true with
    | Except.error e => Except.error e
    | Except.ok wl =>
      if p.sigma = 0 ∧ egrid ≠ [] then Except.error SpecErr.DivisionByZero
      else Except.ok (egrid, wl, egrid.map fun point => gau_fit energies oscs p.sigma p.shift point)

/-- The data attributes of a fully initialized `AbsorptionSpectrum` object. -/
structure AbsorptionSpectrum where
  excited_state_energy : List ℚ
  oscillator_strength : List ℚ
  excited_state_wavelength : List ℚ
  energy : List ℚ
  wavelength : List ℚ
  absorbance : List ℝ

/-- spectrum.py lines 120-170: constructing an `AbsorptionSpectrum` runs
`get_excited_states` and then `generate_spectrum` on the logfile text. -/
noncomputable def absorption_spectrum (text : PyStr) (p : FitParameters) :
    Except SpecErr AbsorptionSpectrum :=
  match get_excited_states text with
  | Except.error e => Except.error e
  | Except.ok (states, eswl) =>
    match generate_spectrum (states.map fun d => d.energy.toRat) (states.map fun d => d.oscillator.toRat) p with
    | Except.error e => Except.error e
    | Except.ok (eg, wg, ab) =>
      Except.ok ⟨states.map fun d => d.energy.toRat, states.map fun d => d.oscillator.toRat, eswl, eg, wg, ab⟩

/-- spectrum.py lines 412-423, `duplicate_state`: format the needle's
energy as `str(energy) + ' eV'` and test substring containment against
every accumulated raw line; parsing the needle can raise. -/
def duplicate_state (needle : PyStr) (haystack : List PyStr) : Except SpecErr Bool :=
  match get_state_data needle with
  | Except.error e => Except.error e
  | Except.ok d =>
    Except.ok (haystack.any fun hay => pyInStr (pyStr d.energy ++ (" eV").toList) hay)

/-- The inner loop of `combine_the_spectra` (spectrum.py lines 405-407):
append each state of a later source unless `duplicate_state` finds it in
the accumulator built so far. -/
def addStates : List PyStr → List PyStr → Except SpecErr (List PyStr)
  | acc, [] => Except.ok acc
  | acc, s :: rest =>
    match duplicate_state s acc with
    | Except.error e => Except.error e
    | Except.ok true => addStates acc rest
    | Except.ok false => addStates (acc ++ [s]) rest

/-- The source loop of `combine_the_spectra` for the sources after the
first. -/
def combineAux : List PyStr → List PyStr → Except SpecErr (List PyStr)
  | acc, [] => Except.ok acc
  | acc, f :: rest =>
    match addStates acc (read_in_excited_states f) with
    | Except.error e => Except.error e
    | Except.ok acc2 => combineAux acc2 rest

/-- spectrum.py lines 389-409, `combine_the_spectra`: the first source's
marker lines are taken in full; every later source's lines pass through
the `duplicate_state` check against the growing accumulator. -/
def combine_the_spectra (logfiles : List PyStr) : Except SpecErr (List PyStr) :=
  match logfiles with
  | [] => Except.ok []
  | f :: rest => combineAux (read_in_excited_states f) rest

/-- spectrum.py lines 426-439, `write_the_temp_file`: the temporary file's
content is the concatenation of the written lines; the model keeps the
content (the path is an I/O detail outside the embedding). -/
def write_the_temp_file (lines_to_write : List PyStr) : PyStr :=
  lines_to_write.flatten

/-- spectrum.py lines 373-386, `join_spectra`: merge the sources, write the
merged lines to a temporary file, and build an `AbsorptionSpectrum` from
that file's text. -/
noncomputable def join_spectra (logfiles : List PyStr) (p : FitParameters) :
    Except SpecErr AbsorptionSpectrum :=
  match combine_the_spectra logfiles with
  | Except.error e => Except.error e
  | Except.ok combined => absorption_spectrum (write_the_temp_file combined) p

/-- A single well-formed record line used as concrete test data: energy
token `3.5` round-trips through `float` and `str`. -/
def lineA : PyStr :=
  (" Excited State 1: Singlet-A 3.5 eV 354.24 nm f=0.1234\n").toList

/-- A record line whose energy token `3.5000` does not round-trip through
`float` and `str` (Python 2 `str(3.5)` is `3.5`). -/
def lineA4 : PyStr :=
  (" Excited State 1: Singlet-A 3.5000 eV 354.24 nm f=0.1234\n").toList

/-- A record line at a different energy, used as a first merge source. -/
def lineB : PyStr :=
  (" Excited State 1: Singlet-A 9.9 eV 125.23 nm f=0.5000\n").toList

/-- A record line containing a tab: tokenizing on all whitespace yields
nine fields, but `split(' ')` yields only eight. -/
def lineTab : PyStr :=
  (" Excited State a\tb 1.5 eV x y f=0.25\n").toList

/-! Helper lemmas about the grid loop. -/

theorem gridFuel_pos (max_energy grd point : ℚ) (hg : 0 < grd) (hp : point ≤ max_energy) :
    1 ≤ gridFuel max_energy grd point := by
  have hc : 0 ≤ ⌈(max_energy - point) / grd⌉ :=
    Int.ceil_nonneg (div_nonneg (by linarith) hg.le)
  unfold gridFuel
  omega

theorem gridFuel_succ (max_energy grd point : ℚ) (hg : 0 < grd) (hp : point ≤ max_energy) :
    gridFuel max_energy grd (point + grd) + 1 = gridFuel max_energy grd point := by
  have hne : grd ≠ 0 := ne_of_gt hg
  have h1 : (max_energy - (point + grd)) / grd = (max_energy - point) / grd - 1 := by
    field_simp
    ring
  have hc : 0 ≤ ⌈(max_energy - point) / grd⌉ :=
    Int.ceil_nonneg (div_nonneg (by linarith) hg.le)
  unfold gridFuel
  rw [h1, Int.ceil_sub_one]
  omega

theorem gridLoop_nil_of_lt (max_energy grd point : ℚ) (h : max_energy < point) :
    ∀ n, gridLoop max_energy grd point n = [] := by
  intro n
  cases n with
  | zero => rfl
  | succ k => simp [gridLoop, not_le.mpr h]

theorem gridLoop_head (max_energy grd point : ℚ) (hp : point ≤ max_energy) (n : Nat)
    (hn : 0 < n) : (gridLoop max_energy grd point n).head? = some point := by
  cases n with
  | zero => omega
  | succ k => simp [gridLoop, hp]

theorem gridLoop_head_mem (max_energy grd point : ℚ) (n : Nat) :
    ∀ b ∈ (gridLoop max_energy grd point n).head?, b = point := by
  intro b hb
  cases n with
  | zero => simp [gridLoop] at hb
  | succ k =>
    by_cases hp : point ≤ max_energy
    · simp only [gridLoop, if_pos hp, List.head?_cons, Option.mem_def, Option.some.injEq] at hb
      exact hb.symm
    · simp only [gridLoop, if_neg hp] at hb
      simp at hb

theorem gridLoop_fuel_stable (max_energy grd : ℚ) (hg : 0 < grd) :
    ∀ n m point, gridFuel max_energy grd point ≤ n → gridFuel max_energy grd point ≤ m →
      gridLoop max_energy grd point n = gridLoop max_energy grd point m := by
  intro n
  induction n with
  | zero =>
    intro m point hn hm
    have hlt : max_energy < point := by
      by_contra hle
      have := gridFuel_pos max_energy grd point hg (not_lt.mp hle)
      omega
    rw [gridLoop_nil_of_lt _ _ _ hlt, gridLoop_nil_of_lt _ _ _ hlt]
  | succ k ih =>
    intro m point hn hm
    cases m with
    | zero =>
      have hlt : max_energy < point := by
        by_contra hle
        have := gridFuel_pos max_energy grd point hg (not_lt.mp hle)
        omega
      rw [gridLoop_nil_of_lt _ _ _ hlt, gridLoop_nil_of_lt _ _ _ hlt]
    | succ j =>
      by_cases hp : point ≤ max_energy
      · have hstep := gridFuel_succ max_energy grd point hg hp
        simp only [gridLoop, if_pos hp]
        rw [ih j (point + grd) (by omega) (by omega)]
      · simp only [gridLoop, if_neg hp]

theorem gridLoop_len_of_nonpos (max_energy grd : ℚ) (hg : grd ≤ 0) :
    ∀ n point, point ≤ max_energy → (gridLoop max_energy grd point n).length = n := by
  intro n
  induction n with
  | zero => intro point _; rfl
  | succ k ih =>
    intro point hp
    simp only [gridLoop, if_pos hp, List.length_cons]
    rw [ih (point + grd) (by linarith)]

theorem gridLoop_chain (max_energy grd : ℚ) :
    ∀ n point, List.Chain' (fun a b => b = a + grd) (gridLoop max_energy grd point n) := by
  intro n
  induction n with
  | zero => intro point; simp [gridLoop]
  | succ k ih =>
    intro point
    by_cases hp : point ≤ max_energy
    · simp only [gridLoop, if_pos hp]
      refine List.chain'_cons'.mpr ⟨?_, ih (point + grd)⟩
      intro y hy
      exact gridLoop_head_mem max_energy grd (point + grd) k y hy
    · simp [gridLoop, hp]

theorem getLast?_cons_of_ne {α : Type} (a : α) (l : List α) (h : l ≠ []) :
    (a :: l).getLast? = l.getLast? := by
  cases l with
  | nil => exact absurd rfl h
  | cons b bs => exact List.getLast?_cons_cons

theorem gridLoop_getLast (max_energy grd : ℚ) (hg : 0 < grd) :
    ∀ n point, point ≤ max_energy → gridFuel max_energy grd point ≤ n →
      ∃ l, (gridLoop max_energy grd point n).getLast? = some l
        ∧ l ≤ max_energy ∧ max_energy < l + grd := by
  intro n
  induction n with
  | zero =>
    intro point hp hn
    have := gridFuel_pos max_energy grd point hg hp
    omega
  | succ k ih =>
    intro point hp hn
    simp only [gridLoop, if_pos hp]
    by_cases h2 : point + grd ≤ max_energy
    · have hf : gridFuel max_energy grd (point + grd) ≤ k := by
        have := gridFuel_succ max_energy grd point hg hp
        omega
      obtain ⟨l, hl, hle, hlt⟩ := ih (point + grd) h2 hf
      have hne : gridLoop max_energy grd (point + grd) k ≠ [] := by
        intro hnil
        rw [hnil] at hl
        simp at hl
      refine ⟨l, ?_, hle, hlt⟩
      rw [getLast?_cons_of_ne _ _ hne]
      exact hl
    · rw [gridLoop_nil_of_lt _ _ _ (not_le.mp h2) k]
      exact ⟨point, by simp, hp, not_le.mp h2⟩

theorem foldl_min_le (xs : List ℚ) : ∀ x : ℚ, xs.foldl min x ≤ x := by
  induction xs with
  | nil => intro x; simp
  | cons y ys ih =>
    intro x
    calc (y :: ys).foldl min x = ys.foldl min (min x y) := rfl
    _ ≤ min x y := ih (min x y)
    _ ≤ x := min_le_left x y

theorem le_foldl_max (xs : List ℚ) : ∀ x : ℚ, x ≤ xs.foldl max x := by
  induction xs with
  | nil => intro x; simp
  | cons y ys ih =>
    intro x
    calc x ≤ max x y := le_max_left x y
    _ ≤ ys.foldl max (max x y) := ih (max x y)
    _ = (y :: ys).foldl max x := rfl

theorem generate_grid_ok (x : ℚ) (xs : List ℚ) (r grd : ℚ) :
    generate_grid (x :: xs) r grd =
      Except.ok (energy_grid (xs.foldl min x - r) (r + xs.foldl max x) grd) := rfl

/-- Claim C10: over exact arithmetic the grid-generation loop terminates
whenever the grid spacing is positive (once the fuel reaches `gridFuel`,
adding more fuel never changes the output, so `energy_grid` is the loop's
limit), and positivity is exactly what the loop relies on: for a
non-positive spacing started inside the range, the loop consumes every
amount of fuel without finishing (the output length equals the fuel, so
the Python loop never exits). -/
theorem c10_grid_termination (max_energy grd point : ℚ) :
    (0 < grd → ∀ n, gridFuel max_energy grd point ≤ n →
      gridLoop max_energy grd point n = energy_grid point max_energy grd)
    ∧ (grd ≤ 0 → point ≤ max_energy → ∀ n, (gridLoop max_energy grd point n).length = n) := by
  constructor
  · intro hg n hn
    exact gridLoop_fuel_stable max_energy grd hg n (gridFuel max_energy grd point) point hn le_rfl
  · intro hg hp n
    exact gridLoop_len_of_nonpos max_energy grd hg n point hp

/-- Witness for C10 at concrete inputs: spacing `1/2` over `[0, 2]`
stabilizes at fuel 5 (extra fuel 7 gives the same grid), while spacing
`-1` keeps looping (output length equals any supplied fuel). -/
theorem c10_grid_termination_witness :
    gridLoop (2 : ℚ) (1/2) 0 7 = energy_grid 0 2 (1/2)
    ∧ (gridLoop (2 : ℚ) (-1) 0 5).length = 5 :=
  ⟨(c10_grid_termination 2 (1/2) 0).1 (by norm_num) 7 (by norm_num [gridFuel, Int.toNat_ofNat]),
   (c10_grid_termination 2 (-1) 0).2 (by norm_num) (by norm_num) 5⟩

/-- Evaluation rule for `gridFuel` used on concrete inputs (the ceiling
is pinned down by the two bounds). -/
theorem gridFuel_eval (max_energy grd point : ℚ) (n : ℕ)
    (h1 : (n : ℚ) - 1 < (max_energy - point) / grd)
    (h2 : (max_energy - point) / grd ≤ (n : ℚ)) :
    gridFuel max_energy grd point = n + 1 := by
  have hc : ⌈(max_energy - point) / grd⌉ = (n : ℤ) := by
    rw [Int.ceil_eq_iff]
    constructor
    · exact_mod_cast h1
    · exact_mod_cast h2
  unfold gridFuel
  rw [hc]
  omega

theorem generate_grid_singleton (x r grd : ℚ) :
    generate_grid [x] r grd = Except.ok (energy_grid (x - r) (r + x) grd) := rfl

/-- Claim C2: for a non-empty stick set and valid fit parameters (positive
spacing, non-negative range, per the FitParameters data model), the
generated energy grid starts exactly at `min(stick energies) - range`,
every successive point exceeds its predecessor by exactly the grid
spacing, and the grid is strictly ascending.  Exact rational equality is
stronger than the 1e-9 floating tolerance the spec allows. -/
theorem c2_grid_start_and_step (energies : List ℚ) (p : FitParameters) (g : List ℚ) (m : ℚ)
    (hne : energies ≠ []) (hgrid : 0 < p.grid) (hrange : 0 ≤ p.plot_range)
    (hm : pyMin energies = Except.ok m)
    (hg : generate_grid energies p.plot_range p.grid = Except.ok g) :
    g.head? = some (m - p.plot_range)
    ∧ List.Chain' (fun a b => b = a + p.grid) g
    ∧ List.Pairwise (· < ·) g := by
  obtain ⟨x, xs, rfl⟩ : ∃ x xs, energies = x :: xs := by
    cases energies with
    | nil => exact absurd rfl hne
    | cons x xs => exact ⟨x, xs, rfl⟩
  rw [generate_grid_ok] at hg
  have hmeq : m = xs.foldl min x := by
    unfold pyMin at hm
    injection hm with h
    exact h.symm
  have hgeq : g = energy_grid (xs.foldl min x - p.plot_range)
      (p.plot_range + xs.foldl max x) p.grid := by
    injection hg with h
    exact h.symm
  have hmm : xs.foldl min x ≤ xs.foldl max x :=
    le_trans (foldl_min_le xs x) (le_foldl_max xs x)
  have hle : xs.foldl min x - p.plot_range ≤ p.plot_range + xs.foldl max x := by linarith
  refine ⟨?_, ?_, ?_⟩
  · rw [hgeq, hmeq]
    exact gridLoop_head _ _ _ hle _ (gridFuel_pos _ _ _ hgrid hle)
  · rw [hgeq]
    exact gridLoop_chain _ _ _ _
  · rw [hgeq]
    have hchain : List.Chain' (· < ·)
        (energy_grid (xs.foldl min x - p.plot_range) (p.plot_range + xs.foldl max x) p.grid) := by
      refine (gridLoop_chain _ _ _ _).imp ?_
      intro a b hab
      rw [hab]
      linarith
    exact List.chain'_iff_pairwise.mp hchain

/-- Witness for C2 at the spec's own scenario: one stick at `3.5`, range
`1`, spacing `0.5` gives the grid `2.5, 3.0, 3.5, 4.0, 4.5`. -/
theorem c2_grid_start_and_step_witness :
    (([(7:ℚ)/2] : List ℚ) ≠ [])
    ∧ ((0:ℚ) < 1/2) ∧ ((0:ℚ) ≤ 1)
    ∧ pyMin [(7:ℚ)/2] = Except.ok (7/2)
    ∧ generate_grid [(7:ℚ)/2] 1 (1/2) = Except.ok [5/2, 3, 7/2, 4, 9/2]
    ∧ ([(5:ℚ)/2, 3, 7/2, 4, 9/2].head? = some ((7:ℚ)/2 - 1)
        ∧ List.Chain' (fun a b => b = a + ((⟨1/2, 3/10, 0, 1⟩ : FitParameters)).grid)
            [(5:ℚ)/2, 3, 7/2, 4, 9/2]
        ∧ List.Pairwise (· < ·) [(5:ℚ)/2, 3, 7/2, 4, 9/2]) := by
  have hmin : pyMin [(7:ℚ)/2] = Except.ok (7/2) := rfl
  have hg : generate_grid [(7:ℚ)/2] 1 (1/2) = Except.ok [5/2, 3, 7/2, 4, 9/2] := by
    norm_num [generate_grid, pyMax, pyMin, energy_grid, gridFuel, gridLoop, Int.toNat_ofNat]
  exact ⟨by simp, by norm_num, by norm_num, hmin, hg,
    c2_grid_start_and_step [7/2] ⟨1/2, 3/10, 0, 1⟩ _ _ (by simp) (by norm_num) (by norm_num)
      hmin hg⟩

/-- Claim C3 is false as stated: with one stick at `3.5`, range `1` and
spacing `0.6`, `max(stick energies) + range` is `4.5` but the generated
grid is `2.5, 3.1, 3.7, 4.3`, whose last point `4.3` is strictly below
`4.5` (the loop stops at the last point `<= max_energy`; `4.9` is never
appended). -/
theorem c3_last_point_counterexample :
    pyMax [(7:ℚ)/2] = Except.ok (7/2)
    ∧ generate_grid [(7:ℚ)/2] 1 (3/5) = Except.ok [5/2, 31/10, 37/10, 43/10]
    ∧ [(5:ℚ)/2, 31/10, 37/10, 43/10].getLast? = some (43/10)
    ∧ ¬ ((1:ℚ) + 7/2 ≤ 43/10) := by
  refine ⟨rfl, ?_, rfl, by norm_num⟩
  rw [generate_grid_singleton, show (7:ℚ)/2 - 1 = 5/2 by norm_num,
    show (1:ℚ) + 7/2 = 9/2 by norm_num]
  unfold energy_grid
  rw [gridFuel_eval (9/2) (3/5) (5/2) 4 (by norm_num) (by norm_num)]
  norm_num [gridLoop]

/-- Claim C3 amended: the last grid point need not reach
`max(stick energies) + range`; in exact arithmetic it lies in the
half-open window of one spacing at the top of the range,
`max + range - gridSpacing < last ≤ max + range`. -/
theorem c3_grid_last_amended (energies : List ℚ) (p : FitParameters) (g : List ℚ) (M : ℚ)
    (hne : energies ≠ []) (hgrid : 0 < p.grid) (hrange : 0 ≤ p.plot_range)
    (hM : pyMax energies = Except.ok M)
    (hg : generate_grid energies p.plot_range p.grid = Except.ok g) :
    ∃ l, g.getLast? = some l ∧ l ≤ p.plot_range + M ∧ p.plot_range + M < l + p.grid := by
  obtain ⟨x, xs, rfl⟩ : ∃ x xs, energies = x :: xs := by
    cases energies with
    | nil => exact absurd rfl hne
    | cons x xs => exact ⟨x, xs, rfl⟩
  rw [generate_grid_ok] at hg
  have hMeq : M = xs.foldl max x := by
    unfold pyMax at hM
    injection hM with h
    exact h.symm
  have hgeq : g = energy_grid (xs.foldl min x - p.plot_range)
      (p.plot_range + xs.foldl max x) p.grid := by
    injection hg with h
    exact h.symm
  have hmm : xs.foldl min x ≤ xs.foldl max x :=
    le_trans (foldl_min_le xs x) (le_foldl_max xs x)
  have hle : xs.foldl min x - p.plot_range ≤ p.plot_range + xs.foldl max x := by linarith
  rw [hgeq, hMeq]
  exact gridLoop_getLast (p.plot_range + xs.foldl max x) p.grid hgrid _
    (xs.foldl min x - p.plot_range) hle le_rfl

/-- Witness for the amended C3: with spacing `0.6` the last point `4.3`
satisfies `4.5 - 0.6 < 4.3 ≤ 4.5`. -/
theorem c3_grid_last_amended_witness :
    pyMax [(7:ℚ)/2] = Except.ok (7/2)
    ∧ generate_grid [(7:ℚ)/2] 1 (3/5) = Except.ok [5/2, 31/10, 37/10, 43/10]
    ∧ ∃ l, [(5:ℚ)/2, 31/10, 37/10, 43/10].getLast? = some l
        ∧ l ≤ (1:ℚ) + 7/2 ∧ (1:ℚ) + 7/2 < l + (3:ℚ)/5 := by
  have hmax : pyMax [(7:ℚ)/2] = Except.ok (7/2) := rfl
  have hg : generate_grid [(7:ℚ)/2] 1 (3/5) = Except.ok [5/2, 31/10, 37/10, 43/10] := by
    rw [generate_grid_singleton, show (7:ℚ)/2 - 1 = 5/2 by norm_num,
      show (1:ℚ) + 7/2 = 9/2 by norm_num]
    unfold energy_grid
    rw [gridFuel_eval (9/2) (3/5) (5/2) 4 (by norm_num) (by norm_num)]
    norm_num [gridLoop]
  exact ⟨hmax, hg,
    c3_grid_last_amended [7/2] ⟨3/5, 3/10, 0, 1⟩ _ _ (by simp) (by norm_num) (by norm_num)
      hmax hg⟩

/-- Claim C7: running the synthesizer on a stick set with zero sticks
fails with `EmptyStickSet` for every choice of fit parameters (`max` of
the empty energy list raises before anything else happens), and no curve
data of any kind is produced: the whole computation is the single error
value, so phase 2 never runs. -/
theorem c7_empty_stick_set (p : FitParameters) (oscs : List ℚ) :
    generate_spectrum [] oscs p = Except.error SpecErr.EmptyStickSet
    ∧ ∀ out, generate_spectrum [] oscs p ≠ Except.ok out := by
  have h : generate_spectrum [] oscs p = Except.error SpecErr.EmptyStickSet := rfl
  refine ⟨h, ?_⟩
  intro out hout
  rw [h] at hout
  exact Except.noConfusion hout

/-- Claim C8: element-wise inverse unit conversion fails with
`DivisionByZero` exactly when some input value is zero, and on all-nonzero
input succeeds with the order-preserving element-wise image, whose length
equals the input length. -/
theorem c8_convert_units_cases (data : List ℚ) (c : ℚ) :
    convert_units data c true =
      (if (0:ℚ) ∈ data then Except.error SpecErr.DivisionByZero
       else Except.ok (data.map fun v => c / v))
    ∧ (data.map fun v => c / v).length = data.length := by
  refine ⟨?_, by simp⟩
  induction data with
  | nil => simp [convert_units]
  | cons v vs ih =>
    by_cases hv : v = 0
    · subst hv
      simp [convert_units]
    · by_cases hm : (0:ℚ) ∈ vs
      · simp [convert_units, hv, hm, ih, Ne.symm hv]
      · simp [convert_units, hv, hm, ih, Ne.symm hv]

/-! Helper lemmas for the line-shape sum. -/

theorem foldl_add_range (f : ℕ → ℝ) : ∀ (n : ℕ) (a : ℝ),
    (List.range n).foldl (fun acc i => acc + f i) a = a + ((List.range n).map f).sum := by
  intro n
  induction n with
  | zero => intro a; simp
  | succ k ih =>
    intro a
    rw [List.range_succ, List.foldl_append, List.map_append, List.sum_append]
    simp [ih]
    ring

theorem sum_range_zip (sigma shift x : ℚ) : ∀ (es os : List ℚ), os.length = es.length →
    ((List.range es.length).map fun i => gau_term sigma shift (es.getD i 0) (os.getD i 0) x).sum
      = ((es.zip os).map fun s => gau_term sigma shift s.1 s.2 x).sum := by
  intro es
  induction es with
  | nil =>
    intro os h
    simp
  | cons e es ih =>
    intro os h
    cases os with
    | nil => simp at h
    | cons o os =>
      have h2 : os.length = es.length := by
        simp only [List.length_cons] at h
        omega
      rw [List.length_cons, List.range_succ_eq_map, List.map_cons, List.sum_cons, List.map_map]
      rw [List.zip_cons_cons, List.map_cons, List.sum_cons]
      congr 1
      simp only [Function.comp_def, List.getD_cons_succ]
      exact ih os h2

theorem gau_fit_eq_sum (energies oscs : List ℚ) (sigma shift x : ℚ)
    (hlen : oscs.length = energies.length) :
    gau_fit energies oscs sigma shift x
      = ((energies.zip oscs).map fun (s : ℚ × ℚ) =>
          (s.2 : ℝ) * Real.exp (-0.5 * (((x : ℝ) + (shift : ℝ) - (s.1 : ℝ)) / (sigma : ℝ)) ^ 2)).sum := by
  unfold gau_fit
  rw [foldl_add_range (fun i => gau_term sigma shift (energies.getD i 0) (oscs.getD i 0) x)
    energies.length 0]
  rw [zero_add, sum_range_zip sigma shift x energies oscs hlen]
  have hfun : (fun (s : ℚ × ℚ) => gau_term sigma shift s.1 s.2 x)
      = fun (s : ℚ × ℚ) =>
          (s.2 : ℝ) * Real.exp (-0.5 * (((x : ℝ) + (shift : ℝ) - (s.1 : ℝ)) / (sigma : ℝ)) ^ 2) := by
    funext s
    unfold gau_term
    congr 2
    rw [div_pow]
    ring
  rw [hfun]

/-- Claim C1: whenever the synthesizer succeeds (computable phase-1
hypotheses pin down its grid and wavelengths), the absorbance list is the
map, over the energy grid in order, of the Gaussian line-shape sum
`sum over sticks s of osc(s) * exp(-0.5 * ((x + shift - energy(s)) / sigma)^2)`
over the sticks (energy paired with oscillator strength in extraction
order); in particular the absorbance sequence has the same length and
order as the energy grid. -/
theorem c1_absorbance_formula (energies oscs : List ℚ) (p : FitParameters) (g w : List ℚ)
    (hne : energies ≠ []) (hlen : oscs.length = energies.length) (hsig : 0 < p.sigma)
    (hg : generate_grid energies p.plot_range p.grid = Except.ok g)
    (hw : convert_units g EV2NM true = Except.ok w) :
    generate_spectrum energies oscs p = Except.ok (g, w,
      g.map fun (x : ℚ) => ((energies.zip oscs).map fun (s : ℚ × ℚ) =>
        (s.2 : ℝ) * Real.exp (-0.5 * (((x : ℝ) + (p.shift : ℝ) - (s.1 : ℝ)) / (p.sigma : ℝ)) ^ 2)).sum)
    ∧ (g.map fun (x : ℚ) => ((energies.zip oscs).map fun (s : ℚ × ℚ) =>
        (s.2 : ℝ) * Real.exp (-0.5 * (((x : ℝ) + (p.shift : ℝ) - (s.1 : ℝ)) / (p.sigma : ℝ)) ^ 2)).sum).length
      = g.length := by
  refine ⟨?_, by simp⟩
  have hmap : (fun (x : ℚ) => gau_fit energies oscs p.sigma p.shift x)
      = fun (x : ℚ) => ((energies.zip oscs).map fun (s : ℚ × ℚ) =>
          (s.2 : ℝ) * Real.exp (-0.5 * (((x : ℝ) + (p.shift : ℝ) - (s.1 : ℝ)) / (p.sigma : ℝ)) ^ 2)).sum := by
    funext x
    exact gau_fit_eq_sum energies oscs p.sigma p.shift x hlen
  unfold generate_spectrum
  simp only [hg, hw]
  rw [if_neg (fun hc => hsig.ne' hc.1), hmap]

/-- Witness for C1 at the spec's scenario: one stick `3.5` with strength
`1`, sigma `0.3`, shift `0`, range `1`, spacing `0.5`. -/
theorem c1_absorbance_formula_witness :
    (([(7:ℚ)/2] : List ℚ) ≠ []) ∧ ([(1:ℚ)].length = [(7:ℚ)/2].length) ∧ ((0:ℚ) < 3/10)
    ∧ generate_grid [(7:ℚ)/2] 1 (1/2) = Except.ok [5/2, 3, 7/2, 4, 9/2]
    ∧ convert_units [(5:ℚ)/2, 3, 7/2, 4, 9/2] EV2NM true
        = Except.ok [61992/125, 10332/25, 8856/25, 7749/25, 6888/25]
    ∧ generate_spectrum [(7:ℚ)/2] [1] ⟨1/2, 3/10, 0, 1⟩ = Except.ok
        ([(5:ℚ)/2, 3, 7/2, 4, 9/2], [(61992:ℚ)/125, 10332/25, 8856/25, 7749/25, 6888/25],
         [(5:ℚ)/2, 3, 7/2, 4, 9/2].map fun (x : ℚ) =>
           (([(7:ℚ)/2].zip [(1:ℚ)]).map fun (s : ℚ × ℚ) =>
             (s.2 : ℝ) * Real.exp
               (-0.5 * (((x : ℝ) + (((⟨1/2, 3/10, 0, 1⟩ : FitParameters)).shift : ℝ)
                 - (s.1 : ℝ)) / (((⟨1/2, 3/10, 0, 1⟩ : FitParameters)).sigma : ℝ)) ^ 2)).sum) := by
  have hg : generate_grid [(7:ℚ)/2] 1 (1/2) = Except.ok [5/2, 3, 7/2, 4, 9/2] := by
    norm_num [generate_grid, pyMax, pyMin, energy_grid, gridFuel, gridLoop, Int.toNat_ofNat]
  have hw : convert_units [(5:ℚ)/2, 3, 7/2, 4, 9/2] EV2NM true
      = Except.ok [61992/125, 10332/25, 8856/25, 7749/25, 6888/25] := by
    norm_num [convert_units, EV2NM]
  exact ⟨by simp, by simp, by norm_num, hg, hw,
    (c1_absorbance_formula [7/2] [1] ⟨1/2, 3/10, 0, 1⟩ _ _ (by simp) (by simp) (by norm_num)
      hg hw).1⟩

set_option maxRecDepth 10000

/-- If every state of a later source is already present in the accumulator
and contains its own formatted energy string, the duplicate check fires on
each of them and the accumulator is returned unchanged. -/
theorem addStates_all_dup (acc : List PyStr) :
    ∀ states : List PyStr,
      (∀ s ∈ states, s ∈ acc ∧ ∃ d, get_state_data s = Except.ok d
          ∧ pyInStr (pyStr d.energy ++ (" eV").toList) s = true) →
      addStates acc states = Except.ok acc := by
  intro states
  induction states with
  | nil => intro _; rfl
  | cons s rest ih =>
    intro h
    obtain ⟨hmem, d, hd, hself⟩ := h s (List.mem_cons_self s rest)
    have hdup : duplicate_state s acc = Except.ok true := by
      simp only [duplicate_state, hd, Except.ok.injEq]
      rw [List.any_eq_true]
      exact ⟨s, hmem, hself⟩
    simp only [addStates, hdup]
    exact ih fun t ht => h t (List.mem_cons_of_mem s ht)

/-- Claim C4 is false as stated: for the source consisting of the single
record line with energy text `3.5000`, merging the source with itself
yields two sticks, not one.  The duplicate check formats the parsed energy
as `str(3.5) + " eV" = "3.5 eV"`, which is not a substring of a line that
spells the energy `3.5000 eV`, so the second copy is admitted. -/
theorem c4_self_merge_counterexample :
    (read_in_excited_states lineA4).length = 1
    ∧ Except.map List.length (combine_the_spectra [lineA4, lineA4]) = Except.ok 2
    ∧ (2 : Nat) ≠ 1 := by
  refine ⟨by decide, by decide, by decide⟩

/-- Claim C4 amended: self-merge is size-idempotent exactly for sources
whose record lines each contain their own parsed-and-reformatted energy
string (`str(energy) + " eV"`) as a substring — in particular when the
energy text round-trips through `float` and `str`.  For such a source `A`,
`merge([A, A])` has exactly as many sticks as `A`. -/
theorem c4_self_merge_amended (A : PyStr)
    (hp : ∀ s ∈ read_in_excited_states A, ∃ d, get_state_data s = Except.ok d
        ∧ pyInStr (pyStr d.energy ++ (" eV").toList) s = true) :
    Except.map List.length (combine_the_spectra [A, A])
      = Except.ok (read_in_excited_states A).length := by
  have hadd : addStates (read_in_excited_states A) (read_in_excited_states A)
      = Except.ok (read_in_excited_states A) := by
    apply addStates_all_dup
    intro s hs
    obtain ⟨d, hd, hself⟩ := hp s hs
    exact ⟨hs, d, hd, hself⟩
  simp only [combine_the_spectra]
  simp only [combineAux, hadd]
  rfl

/-- Witness for the amended C4: the single-line source whose energy text
`3.5` round-trips, so the self-merge keeps exactly one stick. -/
theorem c4_self_merge_amended_witness :
    (∀ s ∈ read_in_excited_states lineA, ∃ d, get_state_data s = Except.ok d
        ∧ pyInStr (pyStr d.energy ++ (" eV").toList) s = true)
    ∧ Except.map List.length (combine_the_spectra [lineA, lineA])
        = Except.ok (read_in_excited_states lineA).length := by
  have hp : ∀ s ∈ read_in_excited_states lineA, ∃ d, get_state_data s = Except.ok d
      ∧ pyInStr (pyStr d.energy ++ (" eV").toList) s = true := by
    intro s hs
    have hs2 : s = lineA := by
      have h1 : read_in_excited_states lineA = [lineA] := by decide
      rw [h1] at hs
      simpa using hs
    subst hs2
    exact ⟨⟨⟨35, 1⟩, ⟨1234, 4⟩⟩, by decide, by decide⟩
  exact ⟨hp, c4_self_merge_amended lineA hp⟩

/-- Claim C5 is false as stated: the second source contains the same
record line twice (equal energies), and that energy matches nothing in the
first source, yet only one of the two copies is admitted — the duplicate
check runs against the growing accumulator, which already holds the first
copy from the same source. -/
theorem c5_within_source_counterexample :
    read_in_excited_states (lineA ++ lineA) = [lineA, lineA]
    ∧ duplicate_state lineA (read_in_excited_states lineB) = Except.ok false
    ∧ combine_the_spectra [lineB, lineA ++ lineA] = Except.ok [lineB, lineA]
    ∧ ([lineB, lineA].count lineA = 1) ∧ (1 : Nat) ≠ 2 := by
  refine ⟨by decide, by decide, by decide, by decide, by decide⟩

/-- Claim C5 amended: in a source after the first, duplicates are removed
against the whole accumulator, which includes sticks admitted earlier from
the same source: if a later source consists of the same parseable,
self-matching record line twice and its energy string matches no line of
the first source, the merged set admits the line exactly once (the first
source itself is still taken in full, without any within-source dedup). -/
theorem c5_within_source_amended (B A s : PyStr) (d : StateData) (bs : List PyStr)
    (hB : read_in_excited_states B = bs)
    (hA : read_in_excited_states A = [s, s])
    (hd : get_state_data s = Except.ok d)
    (hself : pyInStr (pyStr d.energy ++ (" eV").toList) s = true)
    (hcross : ∀ hay ∈ bs, pyInStr (pyStr d.energy ++ (" eV").toList) hay = false) :
    combine_the_spectra [B, A] = Except.ok (bs ++ [s]) := by
  have hdup1 : duplicate_state s bs = Except.ok false := by
    simp only [duplicate_state, hd, Except.ok.injEq]
    simp only [List.any_eq_false]
    intro hay hhay
    simpa using hcross hay hhay
  have hdup2 : duplicate_state s (bs ++ [s]) = Except.ok true := by
    simp only [duplicate_state, hd, Except.ok.injEq]
    rw [List.any_eq_true]
    exact ⟨s, by simp, hself⟩
  simp only [combine_the_spectra]
  rw [hB]
  simp only [combineAux, hA]
  simp only [addStates, hdup1, hdup2]

/-- Witness for the amended C5: first source `9.9 eV`, second source the
`3.5 eV` line twice; the merge result holds the `3.5` line once. -/
theorem c5_within_source_amended_witness :
    read_in_excited_states lineB = [lineB]
    ∧ read_in_excited_states (lineA ++ lineA) = [lineA, lineA]
    ∧ get_state_data lineA = Except.ok ⟨⟨35, 1⟩, ⟨1234, 4⟩⟩
    ∧ pyInStr (pyStr (⟨35, 1⟩ : PyFloat) ++ (" eV").toList) lineA = true
    ∧ (∀ hay ∈ [lineB], pyInStr (pyStr (⟨35, 1⟩ : PyFloat) ++ (" eV").toList) hay = false)
    ∧ combine_the_spectra [lineB, lineA ++ lineA] = Except.ok ([lineB] ++ [lineA]) := by
  have hcross : ∀ hay ∈ [lineB], pyInStr (pyStr (⟨35, 1⟩ : PyFloat) ++ (" eV").toList) hay
      = false := by
    intro hay hhay
    have hb : hay = lineB := by simpa using hhay
    subst hb
    decide
  refine ⟨by decide, by decide, by decide, by decide, hcross, ?_⟩
  exact c5_within_source_amended lineB (lineA ++ lineA) lineA ⟨⟨35, 1⟩, ⟨1234, 4⟩⟩ [lineB]
    (by decide) (by decide) (by decide) (by decide) hcross

/-- Claim C6 is false as stated: a marker line containing a tab has nine
fields under the spec's tokenization (split on whitespace, drop empties),
with field 4 parsing as `1.5` and field 8 minus its two-character prefix
parsing as `0.25`, yet the code, which splits on the space character only,
sees eight fields and raises (`MalformedRecord`), producing no stick. -/
theorem c6_tokenization_counterexample :
    excited_marker.isPrefixOf lineTab = true
    ∧ (specTokens lineTab).length = 9
    ∧ pyFloat ((specTokens lineTab).getD 4 []) = some ⟨15, 1⟩
    ∧ pyFloat (((specTokens lineTab).getD 8 []).drop 2) = some ⟨25, 2⟩
    ∧ get_state_data lineTab = Except.error SpecErr.MalformedRecord := by
  refine ⟨by decide, by decide, by decide, by decide, by decide⟩

/-- Claim C6 amended: the code tokenizes by splitting on the space
character (not on all whitespace) and discarding empty tokens; for every
line whose space-split token list has entries at indices 4 and 8 that
parse as floats (energy, and oscillator strength after stripping the
two-character prefix), extraction yields exactly that stick; and every
line contributing a stick begins with the literal marker, so non-marker
lines contribute none. -/
theorem c6_extraction_amended (line w4 w8 : PyStr) (e o : PyFloat)
    (h4 : (pyWords line).get? 4 = some w4)
    (h8 : (pyWords line).get? 8 = some w8)
    (he : pyFloat w4 = some e)
    (ho : pyFloat (w8.drop 2) = some o) :
    get_state_data line = Except.ok ⟨e, o⟩
    ∧ ∀ text l, l ∈ read_in_excited_states text → excited_marker.isPrefixOf l = true := by
  constructor
  · simp only [get_state_data, h4, he, h8, ho]
  · intro text l hl
    unfold read_in_excited_states at hl
    exact (List.mem_filter.mp hl).2

/-- Witness for the amended C6 on the well-formed `3.5 eV` record line. -/
theorem c6_extraction_amended_witness :
    (pyWords lineA).get? 4 = some (("3.5").toList)
    ∧ (pyWords lineA).get? 8 = some (("f=0.1234\n").toList)
    ∧ pyFloat (("3.5").toList) = some ⟨35, 1⟩
    ∧ pyFloat ((("f=0.1234\n").toList).drop 2) = some ⟨1234, 4⟩
    ∧ (get_state_data lineA = Except.ok ⟨⟨35, 1⟩, ⟨1234, 4⟩⟩
        ∧ ∀ text l, l ∈ read_in_excited_states text → excited_marker.isPrefixOf l = true) := by
  refine ⟨by decide, by decide, by decide, by decide,
    c6_extraction_amended lineA (("3.5").toList) (("f=0.1234\n").toList) ⟨35, 1⟩ ⟨1234, 4⟩
      (by decide) (by decide) (by decide) (by decide)⟩

/-! Helper lemmas for the temporary-file round trip of `join_spectra`:
writing the merged lines verbatim and re-reading the file yields the same
lines, because every chunk produced by line splitting is non-empty, holds
a newline only at its end, and all chunks except the last end with one. -/

theorem dropLast_append_of_getLast {α : Type} :
    ∀ (l : List α) (c : α), l.getLast? = some c → l.dropLast ++ [c] = l := by
  intro l
  induction l with
  | nil => intro c hc; simp [List.getLast?] at hc
  | cons a l ih =>
    intro c hc
    cases l with
    | nil =>
      simp [List.getLast?] at hc
      subst hc
      rfl
    | cons b bs =>
      rw [List.getLast?_cons_cons] at hc
      calc (a :: b :: bs).dropLast ++ [c] = a :: ((b :: bs).dropLast ++ [c]) := rfl
      _ = a :: (b :: bs) := by rw [ih c hc]

theorem splitLinesAux_append_nl : ∀ (body acc rest : List Char),
    (∀ c ∈ body, c ≠ '\n') →
    splitLinesAux (body ++ '\n' :: rest) acc
      = (acc.reverse ++ body ++ ['\n']) :: splitLinesAux rest [] := by
  intro body
  induction body with
  | nil =>
    intro acc rest _
    simp [splitLinesAux]
  | cons b bs ih =>
    intro acc rest h
    have hb : b ≠ '\n' := h b (List.mem_cons_self b bs)
    rw [List.cons_append]
    simp only [splitLinesAux, if_neg hb]
    rw [ih (b :: acc) rest fun c hc => h c (List.mem_cons_of_mem b hc)]
    simp [List.append_assoc]

theorem splitLinesAux_no_nl : ∀ (body acc : List Char),
    (∀ c ∈ body, c ≠ '\n') → acc.reverse ++ body ≠ [] →
    splitLinesAux body acc = [acc.reverse ++ body] := by
  intro body
  induction body with
  | nil =>
    intro acc _ hne
    simp only [List.append_nil] at hne
    cases acc with
    | nil => exact absurd rfl hne
    | cons a as => simp [splitLinesAux]
  | cons b bs ih =>
    intro acc h hne
    have hb : b ≠ '\n' := h b (List.mem_cons_self b bs)
    simp only [splitLinesAux, if_neg hb]
    rw [ih (b :: acc) (fun c hc => h c (List.mem_cons_of_mem b hc)) (by simp)]
    simp [List.append_assoc]

theorem splitLinesAux_chunk_facts : ∀ (t acc : List Char),
    (∀ c ∈ acc, c ≠ '\n') →
    ∀ l ∈ splitLinesAux t acc, l ≠ [] ∧ ∀ c ∈ l.dropLast, c ≠ '\n' := by
  intro t
  induction t with
  | nil =>
    intro acc hacc l hl
    cases acc with
    | nil => simp [splitLinesAux] at hl
    | cons a as =>
      simp [splitLinesAux] at hl
      subst hl
      refine ⟨by simp, ?_⟩
      rw [List.dropLast_concat]
      intro c hc
      exact hacc c (List.mem_cons_of_mem a (List.mem_reverse.mp hc))
  | cons c0 cs ih =>
    intro acc hacc l hl
    by_cases hc0 : c0 = '\n'
    · subst hc0
      simp only [splitLinesAux, if_pos rfl] at hl
      rcases List.mem_cons.mp hl with hh | hh
      · subst hh
        refine ⟨by simp, ?_⟩
        rw [List.reverse_cons, List.dropLast_concat]
        intro c hc
        exact hacc c (List.mem_reverse.mp hc)
      · exact ih [] (by simp) l hh
    · simp only [splitLinesAux, if_neg hc0] at hl
      refine ih (c0 :: acc) ?_ l hl
      intro c hc
      rcases List.mem_cons.mp hc with hh | hh
      · subst hh; exact hc0
      · exact hacc c hh

theorem splitLinesAux_dropLast_nl : ∀ (t acc : List Char),
    ∀ l ∈ (splitLinesAux t acc).dropLast, l.getLast? = some '\n' := by
  intro t
  induction t with
  | nil =>
    intro acc l hl
    cases acc with
    | nil => simp [splitLinesAux] at hl
    | cons a as => simp [splitLinesAux] at hl
  | cons c0 cs ih =>
    intro acc l hl
    by_cases hc0 : c0 = '\n'
    · subst hc0
      have hstep : splitLinesAux ('\n' :: cs) acc
          = (acc.reverse ++ ['\n']) :: splitLinesAux cs [] := by
        simp [splitLinesAux]
      rw [hstep] at hl
      cases hrest : splitLinesAux cs [] with
      | nil =>
        rw [hrest] at hl
        simp at hl
      | cons r rs =>
        rw [hrest] at hl
        have hred : ((acc.reverse ++ ['\n']) :: r :: rs).dropLast
            = (acc.reverse ++ ['\n']) :: (r :: rs).dropLast := rfl
        rw [hred] at hl
        rcases List.mem_cons.mp hl with hh | hh
        · subst hh
          exact List.getLast?_concat _
        · rw [← hrest] at hh
          exact ih [] l hh
    · simp only [splitLinesAux, if_neg hc0] at hl
      exact ih (c0 :: acc) l hl

theorem dropLast_nl_tail (x : PyStr) (rest : List PyStr)
    (h : ∀ l ∈ (x :: rest).dropLast, l.getLast? = some '\n') :
    ∀ l ∈ rest.dropLast, l.getLast? = some '\n' := by
  intro l hl
  apply h
  cases rest with
  | nil => simp at hl
  | cons r rs =>
    have hred : (x :: r :: rs).dropLast = x :: (r :: rs).dropLast := rfl
    rw [hred]
    exact List.mem_cons_of_mem x hl

theorem dropLast_nl_head (x : PyStr) (rest : List PyStr) (hrne : rest ≠ [])
    (h : ∀ l ∈ (x :: rest).dropLast, l.getLast? = some '\n') :
    x.getLast? = some '\n' := by
  apply h
  cases rest with
  | nil => exact absurd rfl hrne
  | cons r rs =>
    have hred : (x :: r :: rs).dropLast = x :: (r :: rs).dropLast := rfl
    rw [hred]
    exact List.mem_cons_self _ _

theorem filter_dropLast_nl (p : PyStr → Bool) : ∀ (ls : List PyStr),
    (∀ l ∈ ls.dropLast, l.getLast? = some '\n') →
    ∀ l ∈ (ls.filter p).dropLast, l.getLast? = some '\n' := by
  intro ls
  induction ls with
  | nil => intro _ l hl; simp at hl
  | cons x rest ih =>
    intro h l hl
    by_cases hx : p x
    · rw [List.filter_cons_of_pos hx] at hl
      cases hfr : rest.filter p with
      | nil =>
        rw [hfr] at hl
        simp at hl
      | cons y ys =>
        rw [hfr] at hl
        have hred : (x :: y :: ys).dropLast = x :: (y :: ys).dropLast := rfl
        rw [hred] at hl
        rcases List.mem_cons.mp hl with hh | hh
        · rw [hh]
          have hrne : rest ≠ [] := by
            intro hr
            rw [hr] at hfr
            simp at hfr
          exact dropLast_nl_head x rest hrne h
        · rw [← hfr] at hh
          exact ih (dropLast_nl_tail x rest h) l hh
    · have hx2 : p x = false := by simpa using hx
      rw [List.filter_cons_of_neg (by simp [hx2])] at hl
      exact ih (dropLast_nl_tail x rest h) l hl

theorem splitLines_flatten : ∀ (ls : List PyStr),
    (∀ l ∈ ls, l ≠ [] ∧ ∀ c ∈ l.dropLast, c ≠ '\n') →
    (∀ l ∈ ls.dropLast, l.getLast? = some '\n') →
    splitLinesKeep ls.flatten = ls := by
  intro ls
  induction ls with
  | nil => intro _ _; rfl
  | cons l rest ih =>
    intro h1 h2
    obtain ⟨hlne, hlin⟩ := h1 l (List.mem_cons_self l rest)
    cases rest with
    | nil =>
      simp only [List.flatten_cons, List.flatten_nil, List.append_nil]
      unfold splitLinesKeep
      by_cases hend : l.getLast? = some '\n'
      · have hl2 : l.dropLast ++ ['\n'] = l := dropLast_append_of_getLast l '\n' hend
        rw [← hl2, show l.dropLast ++ ['\n'] = l.dropLast ++ '\n' :: ([] : List Char) from rfl]
        rw [splitLinesAux_append_nl l.dropLast [] [] hlin]
        simp [splitLinesAux]
      · have hfree : ∀ c ∈ l, c ≠ '\n' := by
          obtain ⟨c', hc'⟩ : ∃ c', l.getLast? = some c' := by
            cases hlast : l.getLast? with
            | none => exact absurd (List.getLast?_eq_none_iff.mp hlast) hlne
            | some c' => exact ⟨c', rfl⟩
          have hc'ne : c' ≠ '\n' := fun hh => hend (by rw [hc', hh])
          have hl2 := dropLast_append_of_getLast l c' hc'
          intro c hc
          rw [← hl2] at hc
          rcases List.mem_append.mp hc with hh | hh
          · exact hlin c hh
          · simp at hh
            subst hh
            exact hc'ne
        rw [splitLinesAux_no_nl l [] hfree (by simpa using hlne)]
        simp
    | cons r rs =>
      have hend : l.getLast? = some '\n' := dropLast_nl_head l (r :: rs) (by simp) h2
      have hl2 := dropLast_append_of_getLast l '\n' hend
      unfold splitLinesKeep
      rw [List.flatten_cons, ← hl2, List.append_assoc]
      rw [show ((['\n'] : List Char) ++ (r :: rs).flatten) = '\n' :: (r :: rs).flatten from rfl]
      rw [splitLinesAux_append_nl l.dropLast [] _ hlin]
      rw [show ((([] : List Char)).reverse ++ l.dropLast ++ ['\n']) = l.dropLast ++ ['\n'] by simp]
      rw [hl2]
      congr 1
      exact ih (fun t ht => h1 t (List.mem_cons_of_mem l ht)) (dropLast_nl_tail l (r :: rs) h2)

/-- Writing the marker lines of a source to the temporary file and reading
them back (splitting into lines and filtering the marker again) returns
exactly the same lines. -/
theorem read_in_flatten (f : PyStr) :
    read_in_excited_states (read_in_excited_states f).flatten
      = read_in_excited_states f := by
  unfold read_in_excited_states
  have h1 : ∀ l ∈ (splitLinesKeep f).filter (fun l => excited_marker.isPrefixOf l),
      l ≠ [] ∧ ∀ c ∈ l.dropLast, c ≠ '\n' := by
    intro l hl
    exact splitLinesAux_chunk_facts f [] (by simp) l (List.mem_filter.mp hl).1
  have h2 := filter_dropLast_nl (fun l => excited_marker.isPrefixOf l) (splitLinesKeep f)
    (splitLinesAux_dropLast_nl f [])
  rw [splitLines_flatten _ h1 h2, List.filter_filter]
  simp

/-- Claim C9: joining a single source produces exactly the spectrum of
direct extraction: the merge of one source is its marker-line list, the
temporary-file round trip returns the same lines, and every downstream
value (energies, oscillator strengths, wavelengths, grid, absorbance) is
computed from those lines, so the whole results coincide — in particular
the excited-state energies and oscillator strengths agree in order and
values. -/
theorem c9_single_source_join (f : PyStr) (p : FitParameters) :
    join_spectra [f] p = absorption_spectrum f p := by
  have h1 : join_spectra [f] p
      = absorption_spectrum (write_the_temp_file (read_in_excited_states f)) p := rfl
  rw [h1]
  unfold write_the_temp_file absorption_spectrum get_excited_states
  rw [read_in_flatten]
